import Mathlib

/-!
Verification of the pr_dedupe duplicate-PR detection pipeline.

Shallow embedding of the Rust sources:
  - src/utils.rs   : identity codec (uuid / uuid_to_pr_number / uuid_to_repo_name)
  - src/upstash.rs : vector-store query result filtering
  - src/main.rs    : content assembly and store-operation ordering
  - src/bert.rs    : embedding pooling / aggregation and parallel inference

Rust strings are modelled as `List Char`, f32 scores as `Rat`, fallible paths
as `Except (List Char)`.
-/

deriving instance DecidableEq for Except

namespace PrDedupe

/-- Prepends a character to the first segment of a segment list. -/
def consHead (c : Char) : List (List Char) → List (List Char)
  | [] => [[c]]
  | s :: ss => (c :: s) :: ss

/-- Splits a character list on a separator, mirroring Rust's `str::split`:
an empty input yields one empty segment and every separator occurrence starts
a new segment (`"a:"` gives `["a", ""]`, `":"` gives `["", ""]`). -/
def splitOnChar (sep : Char) : List Char → List (List Char)
  | [] => [[]]
  | c :: rest =>
    if c = sep then [] :: splitOnChar sep rest
    else consHead c (splitOnChar sep rest)

/-- utils.rs `uuid`: `format!("{repo_name}:{pr_number}")`. -/
def uuid (repo_name pr_number : List Char) : List Char :=
  repo_name ++ [':'] ++ pr_number

/-- utils.rs `uuid_to_pr_number`: `uuid.split(':').next_back().unwrap()`,
i.e. the last `:`-separated segment. -/
def uuid_to_pr_number (u : List Char) : List Char :=
  (splitOnChar ':' u).getLastD []

/-- utils.rs `uuid_to_repo_name`: `uuid.split(':').next().unwrap()`,
i.e. the first `:`-separated segment. -/
def uuid_to_repo_name (u : List Char) : List Char :=
  (splitOnChar ':' u).headD []

theorem consHead_ne_nil (c : Char) (l : List (List Char)) : consHead c l ≠ [] := by
  cases l <;> simp [consHead]

theorem splitOnChar_ne_nil (sep : Char) (l : List Char) :
    splitOnChar sep l ≠ [] := by
  cases l with
  | nil => simp [splitOnChar]
  | cons c rest =>
    rw [splitOnChar]
    split
    · simp
    · exact consHead_ne_nil c _

theorem splitOnChar_of_not_mem (sep : Char) (l : List Char) (h : sep ∉ l) :
    splitOnChar sep l = [l] := by
  induction l with
  | nil => rfl
  | cons c rest ih =>
    simp only [List.mem_cons, not_or] at h
    rw [splitOnChar, if_neg (fun hc => h.1 hc.symm), ih h.2, consHead]

theorem splitOnChar_append_sep (sep : Char) (xs ys : List Char) (h : sep ∉ xs) :
    splitOnChar sep (xs ++ sep :: ys) = xs :: splitOnChar sep ys := by
  induction xs with
  | nil => rw [List.nil_append, splitOnChar, if_pos rfl]
  | cons c rest ih =>
    simp only [List.mem_cons, not_or] at h
    rw [List.cons_append, splitOnChar, if_neg (fun hc => h.1 hc.symm), ih h.2, consHead]

/-- C1 (amended): for every repo name and PR number that do not contain the
delimiter `':'` — which includes all repo names containing `'/'` — decoding
the id produced by `uuid` yields back exactly the repo name and PR number. -/
theorem uuid_roundtrip (repo pr : List Char) (hr : ':' ∉ repo) (hp : ':' ∉ pr) :
    uuid_to_repo_name (uuid repo pr) = repo ∧ uuid_to_pr_number (uuid repo pr) = pr := by
  have h1 : splitOnChar ':' (uuid repo pr) = [repo, pr] := by
    have : uuid repo pr = repo ++ ':' :: pr := by
      simp [uuid]
    rw [this, splitOnChar_append_sep ':' repo pr hr, splitOnChar_of_not_mem ':' pr hp]
  exact ⟨by simp [uuid_to_repo_name, h1], by simp [uuid_to_pr_number, h1]⟩

theorem uuid_roundtrip_witness :
    (':' ∉ ['c', 's', '/', 'p', 'r']) ∧ (':' ∉ ['2']) ∧
      uuid_to_repo_name (uuid ['c', 's', '/', 'p', 'r'] ['2']) = ['c', 's', '/', 'p', 'r'] ∧
      uuid_to_pr_number (uuid ['c', 's', '/', 'p', 'r'] ['2']) = ['2'] :=
  ⟨by decide, by decide,
    (uuid_roundtrip ['c', 's', '/', 'p', 'r'] ['2'] (by decide) (by decide)).1,
    (uuid_roundtrip ['c', 's', '/', 'p', 'r'] ['2'] (by decide) (by decide)).2⟩

/-- C1 fails as stated for arbitrary repo names: for the repo name `"a:b"`
(which contains the delimiter) decoding the encoded id does not return the
repo name — `uuid_to_repo_name` keeps only the first `:`-segment. -/
theorem uuid_roundtrip_counterexample :
    uuid_to_repo_name (uuid ['a', ':', 'b'] ['2']) ≠ ['a', ':', 'b'] := by
  decide

/-- upstash.rs `Data`: one raw entry of the store's query response,
`{id, score}`; the f32 score is modelled as a rational. -/
structure Data where
  id : List Char
  score : Rat
deriving DecidableEq

/-- main.rs `SimilarPRsInner`: `{pr_url, percentage}`. -/
structure SimilarPRsInner where
  pr_url : List Char
  percentage : Rat
deriving DecidableEq

/-- upstash.rs `add_pr_prefix` closure:
`format!("https://github.com/{repo_name}/pull/{pr_number}")`. -/
def prUrl (repo_name pr_number : List Char) : List Char :=
  "https://github.com/".toList ++ repo_name ++ "/pull/".toList ++ pr_number

/-- upstash.rs `From<QueryResult> for SimilarPRs`: keeps entries whose
decoded repo equals `REPO_NAME` and whose PR url differs from the current
PR's url, then maps each to `{pr_url, percentage = score * 100}`. -/
def similarPRsData (repo_name pr_number : List Char) (result : List Data) :
    List SimilarPRsInner :=
  (result.filter (fun d =>
      (repo_name == uuid_to_repo_name d.id) &&
      (prUrl repo_name (uuid_to_pr_number d.id) != prUrl repo_name pr_number))).map
    (fun d => ⟨prUrl repo_name (uuid_to_pr_number d.id), d.score * 100⟩)

/-- upstash.rs `Upstash::query`: converts the raw response and retains only
entries with `percentage >= min_similarity`. -/
def query (repo_name pr_number : List Char) (min_similarity : Nat)
    (result : List Data) : List SimilarPRsInner :=
  (similarPRsData repo_name pr_number result).filter
    (fun d => decide ((min_similarity : Rat) ≤ d.percentage))

theorem prUrl_inj (repo a b : List Char) (h : prUrl repo a = prUrl repo b) : a = b := by
  unfold prUrl at h
  rwa [List.append_assoc, List.append_assoc, List.append_assoc, List.append_assoc,
    List.append_cancel_left_eq, List.append_cancel_left_eq, List.append_cancel_left_eq] at h

/-- C6: every match returned by `query` derives from a raw entry whose decoded
repo equals the current repo, whose decoded identity differs from the querying
PR's own identity, and whose percentage (raw score times 100) is at least
`min_similarity` — so `query` never returns a self-match, a different-repo
match, or a below-threshold match. -/
theorem query_never_self_or_foreign_or_below (repo pr : List Char) (ms : Nat)
    (res : List Data) (e : SimilarPRsInner) (he : e ∈ query repo pr ms res) :
    (∃ d ∈ res,
        uuid_to_repo_name d.id = repo ∧
        (uuid_to_repo_name d.id, uuid_to_pr_number d.id) ≠ (repo, pr) ∧
        e.pr_url = prUrl repo (uuid_to_pr_number d.id) ∧
        e.percentage = d.score * 100) ∧
    (ms : Rat) ≤ e.percentage := by
  unfold query at he
  rw [List.mem_filter] at he
  obtain ⟨hmem, hms⟩ := he
  refine ⟨?_, of_decide_eq_true hms⟩
  unfold similarPRsData at hmem
  rw [List.mem_map] at hmem
  obtain ⟨d, hd, heq⟩ := hmem
  rw [List.mem_filter] at hd
  obtain ⟨hdres, hcond⟩ := hd
  rw [Bool.and_eq_true, beq_iff_eq, bne_iff_ne] at hcond
  obtain ⟨hrepo, hurl⟩ := hcond
  refine ⟨d, hdres, hrepo.symm, ?_, ?_, ?_⟩
  · intro hpair
    rw [Prod.mk.injEq] at hpair
    exact hurl (by rw [hpair.2])
  · rw [← heq]
  · rw [← heq]

theorem query_never_self_or_foreign_or_below_witness :
    (∃ d ∈ [(⟨['r', ':', '2'], 1/2⟩ : Data)],
        uuid_to_repo_name d.id = ['r'] ∧
        (uuid_to_repo_name d.id, uuid_to_pr_number d.id) ≠ (['r'], ['1']) ∧
        (⟨prUrl ['r'] ['2'], 50⟩ : SimilarPRsInner).pr_url =
          prUrl ['r'] (uuid_to_pr_number d.id) ∧
        (⟨prUrl ['r'] ['2'], 50⟩ : SimilarPRsInner).percentage = d.score * 100) ∧
      ((30 : Nat) : Rat) ≤ (⟨prUrl ['r'] ['2'], 50⟩ : SimilarPRsInner).percentage :=
  query_never_self_or_foreign_or_below ['r'] ['1'] 30 [⟨['r', ':', '2'], 1/2⟩]
    ⟨prUrl ['r'] ['2'], 50⟩ (by
      have h1 : uuid_to_repo_name ['r', ':', '2'] = ['r'] := by decide
      have h2 : uuid_to_pr_number ['r', ':', '2'] = ['2'] := by decide
      have h3 : (prUrl ['r'] ['2'] != prUrl ['r'] ['1']) = true := by decide
      norm_num [query, similarPRsData, List.filter_cons, List.filter_nil, List.map_cons,
        List.map_nil, h1, h2, h3])

/-- C7 fails as stated: for the raw response
`[{id = "r:1", score = 1/2}, {id = "r:2", score = 2}]` the returned matches
are not in descending percentage order (50 then 200) and the percentage 200
lies outside `[0, 100]` — `query` neither sorts nor clamps. -/
theorem query_descending_counterexample :
    ¬ ((query ['r'] ['9'] 0 [⟨['r', ':', '1'], 1/2⟩, ⟨['r', ':', '2'], 2⟩]).Pairwise
        (fun a b => b.percentage ≤ a.percentage)) ∧
    ¬ (∀ e ∈ query ['r'] ['9'] 0 [⟨['r', ':', '1'], 1/2⟩, ⟨['r', ':', '2'], 2⟩],
        0 ≤ e.percentage ∧ e.percentage ≤ 100) := by
  have h1 : uuid_to_repo_name ['r', ':', '1'] = ['r'] := by decide
  have h2 : uuid_to_pr_number ['r', ':', '1'] = ['1'] := by decide
  have h3 : (prUrl ['r'] ['1'] != prUrl ['r'] ['9']) = true := by decide
  have h4 : uuid_to_repo_name ['r', ':', '2'] = ['r'] := by decide
  have h5 : uuid_to_pr_number ['r', ':', '2'] = ['2'] := by decide
  have h6 : (prUrl ['r'] ['2'] != prUrl ['r'] ['9']) = true := by decide
  have hq : query ['r'] ['9'] 0 [⟨['r', ':', '1'], 1/2⟩, ⟨['r', ':', '2'], 2⟩] =
      [⟨prUrl ['r'] ['1'], 50⟩, ⟨prUrl ['r'] ['2'], 200⟩] := by
    norm_num [query, similarPRsData, List.filter_cons, List.filter_nil, List.map_cons,
      List.map_nil, h1, h2, h3, h4, h5, h6]
  rw [hq]
  constructor
  · intro hp
    have := (List.pairwise_cons.mp hp).1 ⟨prUrl ['r'] ['2'], 200⟩ (by simp)
    norm_num at this
  · intro hb
    have := (hb ⟨prUrl ['r'] ['2'], 200⟩ (by simp)).2
    norm_num at this

/-- C7 (amended): `query` returns matches in the raw-response order with
`percentage = score * 100` and no clamping; whenever the raw response lists
its scores in descending order with each score in `[0, 1]` — as a similarity
index does — the returned matches are ordered by descending percentage and
every returned percentage lies in `[0, 100]`. -/
theorem query_descending_of_sorted_response (repo pr : List Char) (ms : Nat)
    (res : List Data)
    (hsort : res.Pairwise (fun a b => b.score ≤ a.score))
    (hrange : ∀ d ∈ res, 0 ≤ d.score ∧ d.score ≤ 1) :
    (query repo pr ms res).Pairwise (fun a b => b.percentage ≤ a.percentage) ∧
    ∀ e ∈ query repo pr ms res, 0 ≤ e.percentage ∧ e.percentage ≤ 100 := by
  constructor
  · unfold query similarPRsData
    refine List.Pairwise.filter _ ?_
    rw [List.pairwise_map]
    exact (hsort.filter _).imp (fun h => by
      simpa using mul_le_mul_of_nonneg_right h (by norm_num : (0 : Rat) ≤ 100))
  · intro e he
    unfold query similarPRsData at he
    rw [List.mem_filter] at he
    rw [List.mem_map] at he
    obtain ⟨⟨d, hd, heq⟩, _⟩ := he
    have hdres := List.mem_of_mem_filter hd
    obtain ⟨h0, h1⟩ := hrange d hdres
    constructor
    · rw [← heq]
      exact mul_nonneg h0 (by norm_num)
    · rw [← heq]
      calc d.score * 100 ≤ 1 * 100 :=
            mul_le_mul_of_nonneg_right h1 (by norm_num)
        _ = 100 := one_mul 100

theorem query_descending_of_sorted_response_witness :
    ([(⟨['r', ':', '1'], 1⟩ : Data), ⟨['r', ':', '2'], 0⟩].Pairwise
        (fun a b => b.score ≤ a.score)) ∧
    (∀ d ∈ [(⟨['r', ':', '1'], 1⟩ : Data), ⟨['r', ':', '2'], 0⟩],
        0 ≤ d.score ∧ d.score ≤ 1) ∧
    ((query ['r'] ['9'] 0 [⟨['r', ':', '1'], 1⟩, ⟨['r', ':', '2'], 0⟩]).Pairwise
        (fun a b => b.percentage ≤ a.percentage) ∧
      ∀ e ∈ query ['r'] ['9'] 0 [⟨['r', ':', '1'], 1⟩, ⟨['r', ':', '2'], 0⟩],
        0 ≤ e.percentage ∧ e.percentage ≤ 100) :=
  ⟨by decide, by decide,
    query_descending_of_sorted_response ['r'] ['9'] 0
      [⟨['r', ':', '1'], 1⟩, ⟨['r', ':', '2'], 0⟩] (by decide) (by decide)⟩

/-- main.rs `FileAction`. -/
inductive FileAction where
  | Added
  | Modified
  | Removed
  | Renamed
deriving DecidableEq

/-- main.rs `From<FileAction> for char`. -/
def symbol : FileAction → Char
  | .Added => '+'
  | .Modified => 'M'
  | .Removed => '-'
  | .Renamed => '^'

/-- main.rs `parse`: `format!("{symbol} : {path}\n{c}\n")` when content is
present, `format!("{symbol} : {path}\n")` when absent. -/
def parse (file_type : FileAction) (path : List Char) (content : Option (List Char)) :
    List Char :=
  match content with
  | some c => symbol file_type :: ' ' :: ':' :: ' ' :: (path ++ '\n' :: (c ++ ['\n']))
  | none => symbol file_type :: ' ' :: ':' :: ' ' :: (path ++ ['\n'])

/-- main.rs `pr_files` iterator: added files tagged `Added` chained with
modified files tagged `Modified`, keeping only non-empty paths whose file name
does not end with any suffix of the ignore list, each mapped to its raw
download url `raw_url ++ file`. -/
def prFiles (ignore : List (List Char)) (raw_url : List Char)
    (added modified : List (List Char)) : List (List Char × FileAction) :=
  (((added.map (fun f => (f, FileAction.Added))) ++
      (modified.map (fun f => (f, FileAction.Modified)))).filter
    (fun p => !p.1.isEmpty && !(ignore.any (fun s => s.isSuffixOf p.1)))).map
    (fun p => (raw_url ++ p.1, p.2))

/-- main.rs per-file download task body: a successful fetch renders the entry
via `parse` with the content; a failed fetch (network error, body error or
invalid UTF-8) hits `log_err_and_exit`, modelled as `Except.error`; a
`Removed`/`Renamed` action inside the download loop is the unreachable
"Unexpected Filetype" exit. -/
def downloadEntry (fetch : List Char → Option (List Char))
    (p : List Char × FileAction) : Except (List Char) (List Char) :=
  match fetch p.1 with
  | some content =>
    match p.2 with
    | .Added | .Modified => Except.ok (parse p.2 p.1 (some content))
    | _ => Except.error ("Unexpected Filetype. Symbol ".toList ++ [symbol p.2])
  | none => Except.error ("Could not download ".toList ++ p.1)

/-- main.rs tail of `pr_content`: removed files tagged `Removed` chained with
renamed files tagged `Renamed`, keeping every non-empty path (the ignore list
is not consulted), rendered with no content. -/
def removedRenamedEntries (raw_url : List Char)
    (removed renamed : List (List Char)) : List (List Char) :=
  (((removed.map (fun f => (f, FileAction.Removed))) ++
      (renamed.map (fun f => (f, FileAction.Renamed)))).filter
    (fun p => !p.1.isEmpty)).map
    (fun p => parse p.2 (raw_url ++ p.1) none)

/-- Reorders a list by a completion order: `buffer_unordered(10).collect()`
yields the download results in the order the fetches complete, modelled as
the list of slots picked in the order given by `perm`. -/
def completionOrder (perm : List Nat) (l : List α) : List α :=
  perm.filterMap (fun i => l.get? i)

/-- main.rs `pr_content`: when all four input lists are empty the placeholder
blob `" "` is produced; otherwise the added/modified entries are collected in
fetch-completion order (any failed fetch aborts the run) and the
removed/renamed entries are appended in input order. -/
def prContent (ignore : List (List Char)) (raw_url : List Char)
    (added modified removed renamed : List (List Char))
    (fetch : List Char → Option (List Char)) (perm : List Nat) :
    Except (List Char) (List (List Char)) :=
  if added.isEmpty && modified.isEmpty && removed.isEmpty && renamed.isEmpty then
    Except.ok [[' ']]
  else
    ((completionOrder perm (prFiles ignore raw_url added modified)).mapM
      (downloadEntry fetch)).map
      (fun dl => dl ++ removedRenamedEntries raw_url removed renamed)

/-- C3 fails on the code: with two added files `"a"` and `"b"` and every fetch
returning empty content, the assembled content depends on the completion order
of the two fetches — completion order `[1, 0]` yields the entries reversed
relative to completion order `[0, 1]` (the stable caller-defined order). -/
theorem assembly_completion_order_counterexample :
    prContent [] [] [['a'], ['b']] [] [] [] (fun _ => some []) [1, 0] =
      Except.ok [parse FileAction.Added ['b'] (some []),
        parse FileAction.Added ['a'] (some [])] ∧
    prContent [] [] [['a'], ['b']] [] [] [] (fun _ => some []) [0, 1] =
      Except.ok [parse FileAction.Added ['a'] (some []),
        parse FileAction.Added ['b'] (some [])] ∧
    [parse FileAction.Added ['b'] (some []), parse FileAction.Added ['a'] (some [])] ≠
      [parse FileAction.Added ['a'] (some []), parse FileAction.Added ['b'] (some [])] := by
  refine ⟨by decide, by decide, by decide⟩

/-- C4 fails on the code: a single added file whose content fetch fails makes
the whole run abort (`log_err_and_exit`), instead of rendering the entry with
empty content and continuing. -/
theorem fetch_failure_aborts_run :
    prContent [] [] [['a']] [] [] [] (fun _ => none) [0] =
      Except.error ("Could not download ".toList ++ ['a']) ∧
    Except.error ("Could not download ".toList ++ ['a']) ≠
      Except.ok [parse FileAction.Added ['a'] (some [])] := by
  refine ⟨by decide, by decide⟩

/-- C10: an added or modified file whose path ends with a suffix on the
ignore list is never entered into the download list (so no content is fetched
and it contributes no entry to the assembled PR content), while removed and
renamed files are never filtered by the ignore list — every non-empty removed
or renamed path contributes its entry regardless of its suffix. -/
theorem ignored_files_never_fetched (ignore : List (List Char)) (raw_url f : List Char)
    (added modified removed renamed : List (List Char))
    (hf : ∃ s ∈ ignore, s.isSuffixOf f = true) :
    (∀ a, (raw_url ++ f, a) ∉ prFiles ignore raw_url added modified) ∧
    (f ≠ [] → f ∈ removed →
      parse FileAction.Removed (raw_url ++ f) none ∈
        removedRenamedEntries raw_url removed renamed) ∧
    (f ≠ [] → f ∈ renamed →
      parse FileAction.Renamed (raw_url ++ f) none ∈
        removedRenamedEntries raw_url removed renamed) := by
  obtain ⟨s, hs, hsf⟩ := hf
  refine ⟨?_, ?_, ?_⟩
  · intro a hmem
    unfold prFiles at hmem
    rw [List.mem_map] at hmem
    obtain ⟨p, hp, heq⟩ := hmem
    rw [Prod.mk.injEq] at heq
    have hpf : p.1 = f := List.append_cancel_left heq.1
    rw [List.mem_filter, Bool.and_eq_true] at hp
    have hany := hp.2.2
    rw [Bool.not_eq_true', List.any_eq_false] at hany
    exact absurd hsf (by rw [← hpf] at hsf ⊢; exact hany s hs)
  · intro hne hmem
    unfold removedRenamedEntries
    rw [List.mem_map]
    refine ⟨(f, FileAction.Removed), ?_, rfl⟩
    rw [List.mem_filter]
    constructor
    · exact List.mem_append.mpr (Or.inl (List.mem_map.mpr ⟨f, hmem, rfl⟩))
    · simpa using hne
  · intro hne hmem
    unfold removedRenamedEntries
    rw [List.mem_map]
    refine ⟨(f, FileAction.Renamed), ?_, rfl⟩
    rw [List.mem_filter]
    constructor
    · exact List.mem_append.mpr (Or.inr (List.mem_map.mpr ⟨f, hmem, rfl⟩))
    · simpa using hne

theorem ignored_files_never_fetched_witness :
    (∃ s ∈ [['x']], s.isSuffixOf ['a', 'x'] = true) ∧
    (∀ a, (['u'] ++ ['a', 'x'], a) ∉ prFiles [['x']] ['u'] [['a', 'x']] []) ∧
    (parse FileAction.Removed (['u'] ++ ['a', 'x']) none ∈
      removedRenamedEntries ['u'] [['a', 'x']] []) :=
  ⟨⟨['x'], by decide, by decide⟩,
    (ignored_files_never_fetched [['x']] ['u'] ['a', 'x'] [['a', 'x']] [] [['a', 'x']] []
      ⟨['x'], by decide, by decide⟩).1,
    (ignored_files_never_fetched [['x']] ['u'] ['a', 'x'] [['a', 'x']] [] [['a', 'x']] []
      ⟨['x'], by decide, by decide⟩).2.1 (by decide) (by decide)⟩

/-- Store operations issued by main.rs, in program order: `remove_pr` sends a
delete for the PR's id, `Upstash::query` sends the query with the embedding,
`top_k` and `min_similarity`, `save_embedding` upserts the embedding under
the PR's id. -/
inductive StoreOp where
  | queryOp (vector : List Rat) (top_k min_similarity : Nat)
  | upsertOp (id : List Char) (vector : List Rat)
  | deleteOp (id : List Char)
deriving DecidableEq

/-- main.rs control flow, as the sequence of store operations it issues:
the closed path only deletes the PR's id; the open path assembles the PR
content (aborting on a failed fetch), computes the embedding from it, then
queries with that fresh embedding and only afterwards upserts it. -/
def mainStoreOps (closed : Bool) (ignore : List (List Char)) (raw_url : List Char)
    (added modified removed renamed : List (List Char))
    (fetch : List Char → Option (List Char)) (perm : List Nat)
    (embed : List (List Char) → List Rat) (repo pr_number : List Char)
    (top_k min_similarity : Nat) : Except (List Char) (List StoreOp) :=
  if closed then
    Except.ok [StoreOp.deleteOp (uuid repo pr_number)]
  else
    match prContent ignore raw_url added modified removed renamed fetch perm with
    | Except.error e => Except.error e
    | Except.ok content =>
      Except.ok [StoreOp.queryOp (embed content) top_k min_similarity,
        StoreOp.upsertOp (uuid repo pr_number) (embed content)]

/-- C8: on the open/update path, whenever content assembly succeeds, the run
issues exactly the query with the freshly computed, not-yet-persisted
embedding first and the upsert persisting that same embedding second — query
happens-before upsert in every run. -/
theorem query_happens_before_upsert (ignore : List (List Char)) (raw_url : List Char)
    (added modified removed renamed : List (List Char))
    (fetch : List Char → Option (List Char)) (perm : List Nat)
    (embed : List (List Char) → List Rat) (repo pr_number : List Char)
    (top_k min_similarity : Nat) (content : List (List Char))
    (h : prContent ignore raw_url added modified removed renamed fetch perm =
      Except.ok content) :
    mainStoreOps false ignore raw_url added modified removed renamed fetch perm
        embed repo pr_number top_k min_similarity =
      Except.ok [StoreOp.queryOp (embed content) top_k min_similarity,
        StoreOp.upsertOp (uuid repo pr_number) (embed content)] := by
  unfold mainStoreOps
  rw [if_neg (by simp), h]

theorem query_happens_before_upsert_witness :
    (prContent [] [] [] [] [] [] (fun _ => none) [] = Except.ok [[' ']]) ∧
    mainStoreOps false [] [] [] [] [] [] (fun _ => none) []
        (fun _ => [1]) ['r'] ['7'] 10 80 =
      Except.ok [StoreOp.queryOp [1] 10 80,
        StoreOp.upsertOp (uuid ['r'] ['7']) [1]] :=
  ⟨by decide,
    query_happens_before_upsert [] [] [] [] [] [] (fun _ => none) []
      (fun _ => [1]) ['r'] ['7'] 10 80 [[' ']] (by decide)⟩

/-- Element-wise sum of two vectors (tensor addition of matching rows). -/
def vadd (a b : List Rat) : List Rat := List.zipWith (· + ·) a b

/-- Sum of a stack of rows (`Tensor::sum(1)` over the token dimension). -/
def sumRows : List (List Rat) → List Rat
  | [] => []
  | r :: rs => rs.foldl vadd r

/-- bert.rs `EmbeddingResponse::to_vec`: the stacked `(n, n_tokens, hidden)`
tensor is avg-pooled over the token dimension (`sum(1) / n_tokens`), giving
one vector per chunk; the result is accepted only when there is exactly one
chunk vector, otherwise it is the error `expected 1 embedding, got {n}`. -/
def to_vec (t : List (List (List Rat))) : Except (List Char) (List Rat) :=
  let n_tokens := (t.headD []).length
  let pooled := t.map (fun rows => (sumRows rows).map (fun x => x / (n_tokens : Rat)))
  match pooled with
  | [v] => Except.ok v
  | _ =>
    Except.error ("expected 1 embedding, got ".toList ++ (Nat.repr pooled.length).toList)

/-- C2 fails on the code: for a PR whose content needs two chunks the stacked
embedding tensor has two chunk vectors and `to_vec` returns the error
`expected 1 embedding, got 2` (which `generate_embeddings` then unwraps,
panicking) instead of the element-wise mean `[3/2]` of the two vectors. -/
theorem to_vec_two_chunks_errors :
    to_vec [[[1]], [[2]]] =
      Except.error ("expected 1 embedding, got 2".toList) ∧
    to_vec [[[1]], [[2]]] ≠ Except.ok [3/2] := by
  refine ⟨by decide, by decide⟩

/-- One parallel task of bert.rs `Bert::generate_embeddings`: the task for
index `i` runs the forward pass on the i-th item and stores the result into
the shared buffer at index `i` (`embeddings[*i] = embedding`). -/
def writeSlot (forward : α → β) (items : List α) (ph : β)
    (buf : List β) (i : Nat) : List β :=
  buf.set i (match items[i]? with | some x => forward x | none => ph)

/-- bert.rs `Bert::generate_embeddings` parallel loop: the result buffer is
pre-sized to `items.length` slots filled with the placeholder
(`Tensor::ones`), and the per-index tasks execute in an arbitrary completion
order `order`, each writing its forward-pass result at its original index. -/
def parForward (forward : α → β) (items : List α) (ph : β)
    (order : List Nat) : List β :=
  order.foldl (writeSlot forward items ph) (List.replicate items.length ph)

theorem writeSlot_length (forward : α → β) (items : List α) (ph : β)
    (buf : List β) (i : Nat) :
    (writeSlot forward items ph buf i).length = buf.length := by
  simp [writeSlot]

theorem foldl_writeSlot_getElem? (forward : α → β) (items : List α) (ph : β) :
    ∀ (order : List Nat) (buf : List β), buf.length = items.length →
      ∀ j : Nat,
      (order.foldl (writeSlot forward items ph) buf)[j]? =
        if j ∈ order ∧ j < items.length then (items.map forward)[j]?
        else buf[j]? := by
  intro order
  induction order with
  | nil =>
    intro buf _ j
    simp
  | cons i rest ih =>
    intro buf hlen j
    rw [List.foldl_cons,
      ih (writeSlot forward items ph buf i) (by rw [writeSlot_length, hlen]) j]
    by_cases hjr : j ∈ rest ∧ j < items.length
    · rw [if_pos hjr, if_pos ⟨List.mem_cons_of_mem i hjr.1, hjr.2⟩]
    · rw [if_neg hjr]
      by_cases hji : j = i ∧ j < items.length
      · rw [if_pos ⟨hji.1 ▸ List.mem_cons_self i rest, hji.2⟩]
        obtain ⟨rfl, hlt⟩ := hji
        unfold writeSlot
        rw [List.getElem?_set_self (by rw [hlen]; exact hlt)]
        have hx : items[j]? = some items[j] := List.getElem?_eq_getElem hlt
        rw [hx, List.getElem?_map, hx]
        rfl
      · rw [if_neg (by
          rintro ⟨hmem, hlt⟩
          rcases List.mem_cons.mp hmem with h | h
          · exact hji ⟨h, hlt⟩
          · exact hjr ⟨h, hlt⟩)]
        unfold writeSlot
        by_cases hij : i = j
        · subst hij
          have hge : buf.length ≤ i := by
            rw [hlen]
            by_contra hlt
            exact hji ⟨rfl, Nat.lt_of_not_le hlt⟩
          rw [List.getElem?_eq_none (by simpa using hge),
            List.getElem?_eq_none (by simpa using hge)]
        · rw [List.getElem?_set_ne hij]

/-- C5: each parallel forward-pass result is written into the pre-sized
result buffer at the item's original index, so for every completion order of
the tasks (any permutation of the indices) the resulting sequence of
per-chunk vectors equals the in-order map of the forward pass — exactly what
sequential execution produces. -/
theorem parForward_order_independent (forward : α → β) (items : List α) (ph : β)
    (order : List Nat) (hperm : order.Perm (List.range items.length)) :
    parForward forward items ph order = items.map forward ∧
    parForward forward items ph order =
      parForward forward items ph (List.range items.length) := by
  have key : ∀ (o : List Nat), o.Perm (List.range items.length) →
      parForward forward items ph o = items.map forward := by
    intro o ho
    apply List.ext_getElem?
    intro j
    unfold parForward
    rw [foldl_writeSlot_getElem? forward items ph o _
      (List.length_replicate _ _) j]
    by_cases hj : j < items.length
    · rw [if_pos ⟨ho.mem_iff.mpr (List.mem_range.mpr hj), hj⟩]
    · rw [if_neg (fun h => hj h.2)]
      rw [List.getElem?_eq_none, List.getElem?_eq_none]
      · simpa using Nat.le_of_not_lt hj
      · simpa using Nat.le_of_not_lt hj
  exact ⟨key order hperm, (key order hperm).trans (key _ (List.Perm.refl _)).symm⟩

theorem parForward_order_independent_witness :
    ([2, 0, 1].Perm (List.range 3)) ∧
    parForward (fun x => x * x) [1, 2, 3] 0 [2, 0, 1] = [1, 4, 9] ∧
    parForward (fun x => x * x) [1, 2, 3] 0 [2, 0, 1] =
      parForward (fun x => x * x) [1, 2, 3] 0 (List.range 3) :=
  ⟨by decide,
    ((parForward_order_independent (fun x => x * x) [1, 2, 3] 0 [2, 0, 1]
      (by decide)).1).trans (by decide),
    (parForward_order_independent (fun x => x * x) [1, 2, 3] 0 [2, 0, 1]
      (by decide)).2⟩

end PrDedupe
